import Mathlib

/-!
TM-Notes-Vault: verification of the cryptographic vault layer.

A shallow embedding of the crypto, vault-session and attachment-indexing
code of the TM-Notes-Vault client (`src/services/crypto.ts`, `src/App.tsx`),
together with proofs of the specified properties.

Bytes are modelled as `Nat` values (with `< 256` bounds carried where the
source guarantees them via `Uint8Array`), buffers as `List Nat`, and the
nondeterministic outputs of `window.crypto.getRandomValues` as explicit
parameters.  Fallible operations return `Option`.
-/

namespace TMVault

/-! Section: Hex codec (`toHex` / `fromHex` in `src/services/crypto.ts`) -/

/-- Lowercase hex digit character for `d < 16`, as produced by JavaScript
`Number.prototype.toString(16)`. -/
def hexDigit (d : Nat) : Char :=
  if d < 10 then Char.ofNat (48 + d) else Char.ofNat (87 + d)

/-- The two hex characters of one byte, matching
`b.toString(16).padStart(2, '0')` for `b < 256` (the domain of `Uint8Array`
elements, the only values the source applies it to). -/
def toHexByte (b : Nat) : List Char := [hexDigit (b / 16), hexDigit (b % 16)]

/-- Function `toHex` from `crypto.ts`: hex-encode a byte buffer, two lowercase digits
per byte, concatenated. -/
def toHex (bytes : List Nat) : String := ⟨bytes.flatMap toHexByte⟩

/-- Numeric value of a hex digit character, as `parseInt(·, 16)` assigns to a
single character; non-hex characters map to 0 (the `Uint8Array` coercion of
`NaN`). -/
def hexVal (c : Char) : Nat :=
  if '0' ≤ c ∧ c ≤ '9' then c.toNat - 48
  else if 'a' ≤ c ∧ c ≤ 'f' then c.toNat - 87
  else if 'A' ≤ c ∧ c ≤ 'F' then c.toNat - 55
  else 0

/-- Decode a hex character list two characters at a time, matching
`hex.match(/.{1,2}/g)!.map(byte => parseInt(byte, 16))` — a trailing odd
character forms its own one-character chunk. -/
def fromHexChars : List Char → List Nat
  | [] => []
  | [a] => [hexVal a]
  | a :: b :: rest => (hexVal a * 16 + hexVal b) :: fromHexChars rest

/-- Function `fromHex` from `crypto.ts`. -/
def fromHex (s : String) : List Nat := fromHexChars s.data

/-! Section: Byte serialisation used by the AEAD model

`window.crypto.subtle` is a platform API, not part of this repository, so
its AES-GCM primitive is modelled from the spec (§4.1–§4.2: deterministic
key derivation from `(password, salt)`; authenticated encryption that
round-trips under the encryption key and iv and fails on any mismatch).
The model serialises the key material and message into the ciphertext with
a prefix-free byte code, which makes the required AEAD properties provable
and keeps every ciphertext byte below 256. -/

/-- Little-endian base-255 digits of `n`, computed with explicit fuel so the
definition is structural (and hence kernel-reducible). -/
def natDigitsFuel : Nat → Nat → List Nat
  | 0, _ => []
  | fuel + 1, n => if n = 0 then [] else n % 255 :: natDigitsFuel fuel (n / 255)

/-- Little-endian base-255 digits of `n` (empty for 0). Every digit is
`< 255`, so the sentinel byte 255 never occurs among them. -/
def natDigits (n : Nat) : List Nat := natDigitsFuel n n

/-- Recombine little-endian base-255 digits into a number. -/
def ofNatDigits : List Nat → Nat
  | [] => 0
  | d :: rest => d + 255 * ofNatDigits rest

/-- Encode one natural number as a self-delimiting byte run: its base-255
digits terminated by the sentinel byte 255. -/
def encodeNat (n : Nat) : List Nat := natDigits n ++ [255]

/-- Split a byte list at the first sentinel byte 255; fails if none occurs. -/
def splitAtSentinel : List Nat → Option (List Nat × List Nat)
  | [] => none
  | b :: rest =>
    if b = 255 then some ([], rest)
    else (splitAtSentinel rest).map (fun p => (b :: p.1, p.2))

/-- Parse one `encodeNat` run from the front of a byte list. -/
def parseNat (l : List Nat) : Option (Nat × List Nat) :=
  (splitAtSentinel l).map (fun p => (ofNatDigits p.1, p.2))

/-- Encode a list of naturals: length first, then each element, all as
self-delimiting `encodeNat` runs. -/
def encodeNatList (l : List Nat) : List Nat :=
  encodeNat l.length ++ l.flatMap encodeNat

/-- Parse `n` consecutive `encodeNat` runs. -/
def parseNats : Nat → List Nat → Option (List Nat × List Nat)
  | 0, l => some ([], l)
  | n + 1, l => do
      let (x, r) ← parseNat l
      let (xs, r') ← parseNats n r
      pure (x :: xs, r')

/-- Parse one `encodeNatList` run from the front of a byte list. -/
def parseNatList (l : List Nat) : Option (List Nat × List Nat) := do
  let (n, r) ← parseNat l
  parseNats n r

/-! Section: Key derivation and AEAD model -/

/-- Function `getPasswordKey` from `crypto.ts`: imports the raw UTF-encoded password
as PBKDF2 key material.  Modelled as the password's character codes. -/
def getPasswordKey (password : String) : List Nat :=
  password.data.map Char.toNat

/-- An AES-GCM key handle as produced by `deriveKey` in `crypto.ts`.
Modelled from the spec: PBKDF2 is deterministic, so the derived key is
determined exactly by the `(password key material, salt)` pair. -/
structure CryptoKey where
  keyMaterial : List Nat
  salt : List Nat
deriving DecidableEq, Repr

/-- Function `deriveKey` from `crypto.ts` (PBKDF2-SHA-256, 100000 iterations, into an
AES-GCM-256 key).  Modelled from the spec (§4.1): deterministic in
`(password, salt)`; the iteration count and hash do not affect any claimed
property. -/
def deriveKey (passwordKey : List Nat) (salt : List Nat) : CryptoKey :=
  ⟨passwordKey, salt⟩

/-- Modelled from the spec: `window.crypto.subtle.encrypt` with AES-GCM
(§4.1–§4.2, platform API, not in `src/`).  An ideal AEAD: the ciphertext
(including its authentication tag) determines the key, iv and message via a
prefix-free serialisation, so decryption succeeds exactly under the
original key and iv. -/
def aesGcmEncrypt (key : CryptoKey) (iv : List Nat) (msg : List Nat) : List Nat :=
  encodeNatList key.keyMaterial ++ encodeNatList key.salt ++
    encodeNatList iv ++ encodeNatList msg

/-- Modelled from the spec: `window.crypto.subtle.decrypt` with AES-GCM.
Fails (`none`, the model's single undifferentiated `DecryptionError`) unless
the ciphertext was produced under exactly this key and iv. -/
def aesGcmDecrypt (key : CryptoKey) (iv : List Nat) (c : List Nat) :
    Option (List Nat) := do
  let (k, r1) ← parseNatList c
  let (s, r2) ← parseNatList r1
  let (i, r3) ← parseNatList r2
  let (m, r4) ← parseNatList r3
  if k = key.keyMaterial ∧ s = key.salt ∧ i = iv ∧ r4 = [] then pure m else none

/-- Modelled from the spec: `TextEncoder.encode` (UTF-8 of the plaintext);
the model keeps one code unit per character. -/
def textEncode (s : String) : List Nat := s.data.map Char.toNat

/-- Modelled from the spec: `TextDecoder.decode`, the partial inverse of
`textEncode`. -/
def textDecode (l : List Nat) : String := ⟨l.map Char.ofNat⟩

/-! Section: Text cipher (`encryptData` / `decryptData` in `src/services/crypto.ts`) -/

/-- The hex-encoded triple returned by `encryptData`. -/
structure EncryptedTextPayload where
  ciphertext : String
  iv : String
  salt : String
deriving DecidableEq, Repr

/-- JS truthiness of an optional string (`undefined` and `''` are falsy). -/
def jsTruthy : Option String → Bool
  | none => false
  | some s => s != ""

/-- Function `encryptData` from `crypto.ts`.  The two fresh outputs of
`window.crypto.getRandomValues` (16 salt bytes for when no truthy salt is
supplied, and the 12 iv bytes) are passed in as `randSalt` and `randIv`.
The source's `providedSalt ? fromHex(providedSalt) : getRandomValues(...)`
tests JS truthiness, so a supplied *empty* salt string is treated like no
salt at all and a fresh random salt is drawn. -/
def encryptData (text password : String) (providedSalt : Option String)
    (randSalt randIv : List Nat) : EncryptedTextPayload :=
  let salt := if jsTruthy providedSalt then fromHex (providedSalt.getD "")
    else randSalt
  let iv := randIv
  let passwordKey := getPasswordKey password
  let aesKey := deriveKey passwordKey salt
  let encrypted := aesGcmEncrypt aesKey iv (textEncode text)
  ⟨toHex encrypted, toHex iv, toHex salt⟩

/-- Function `decryptData` from `crypto.ts`; `none` is the thrown `DecryptionError`. -/
def decryptData (ciphertext ivHex saltHex password : String) : Option String :=
  let salt := fromHex saltHex
  let iv := fromHex ivHex
  let data := fromHex ciphertext
  let passwordKey := getPasswordKey password
  let aesKey := deriveKey passwordKey salt
  (aesGcmDecrypt aesKey iv data).map textDecode

/-! Section: File cipher (`encryptFile` / `decryptFile` in `src/services/crypto.ts`)

A `Blob`/`File` is modelled as its byte buffer; the MIME type tag a `Blob`
additionally carries is presentational metadata that no claimed property
depends on. -/

/-- Function `encryptFile` from `crypto.ts`: packs `[salt (16b)] ++ [iv (12b)] ++
[encrypted data]`, with the random salt and iv passed in explicitly. -/
def encryptFile (fileData : List Nat) (password : String)
    (randSalt randIv : List Nat) : List Nat :=
  let passwordKey := getPasswordKey password
  let aesKey := deriveKey passwordKey randSalt
  let encrypted := aesGcmEncrypt aesKey randIv fileData
  randSalt ++ randIv ++ encrypted

/-- Function `decryptFile` from `crypto.ts`: slices the buffer at the fixed offsets
`[0,16)`, `[16,28)`, `[28,end)` and attempts authenticated decryption. -/
def decryptFile (buffer : List Nat) (password : String) : Option (List Nat) :=
  let salt := buffer.take 16
  let iv := (buffer.drop 16).take 12
  let data := buffer.drop 28
  let passwordKey := getPasswordKey password
  let aesKey := deriveKey passwordKey salt
  aesGcmDecrypt aesKey iv data

/-! Section: Serialisation lemmas -/

theorem natDigitsFuel_sound {fuel n : Nat} (h : n ≤ fuel) :
    ofNatDigits (natDigitsFuel fuel n) = n := by
  induction fuel generalizing n with
  | zero => interval_cases n; rfl
  | succ fuel ih =>
    by_cases hn : n = 0
    · simp [natDigitsFuel, hn, ofNatDigits]
    · have hdiv : n / 255 ≤ fuel := by
        have : n / 255 < n := Nat.div_lt_self (Nat.pos_of_ne_zero hn) (by omega)
        omega
      simp only [natDigitsFuel, hn, if_false, ofNatDigits, ih hdiv]
      omega

theorem ofNatDigits_natDigits (n : Nat) : ofNatDigits (natDigits n) = n :=
  natDigitsFuel_sound le_rfl

theorem mem_natDigitsFuel_lt {fuel n d : Nat} (h : d ∈ natDigitsFuel fuel n) :
    d < 255 := by
  induction fuel generalizing n with
  | zero => simp [natDigitsFuel] at h
  | succ fuel ih =>
    by_cases hn : n = 0
    · simp [natDigitsFuel, hn] at h
    · simp only [natDigitsFuel, hn, if_false, List.mem_cons] at h
      rcases h with h | h
      · subst h; exact Nat.mod_lt _ (by omega)
      · exact ih h

theorem mem_natDigits_ne_sentinel {n d : Nat} (h : d ∈ natDigits n) : d ≠ 255 := by
  have := @mem_natDigitsFuel_lt n n d h
  omega

theorem splitAtSentinel_append (digs rest : List Nat)
    (h : ∀ d ∈ digs, d ≠ 255) :
    splitAtSentinel (digs ++ 255 :: rest) = some (digs, rest) := by
  induction digs with
  | nil => simp [splitAtSentinel]
  | cons d ds ih =>
    have hd : d ≠ 255 := h d (List.mem_cons_self d ds)
    have hds : ∀ x ∈ ds, x ≠ 255 := fun x hx => h x (List.mem_cons_of_mem d hx)
    simp [splitAtSentinel, hd, ih hds]

theorem parseNat_encodeNat (n : Nat) (rest : List Nat) :
    parseNat (encodeNat n ++ rest) = some (n, rest) := by
  have h := splitAtSentinel_append (natDigits n) rest
    (fun d hd => mem_natDigits_ne_sentinel hd)
  simp [parseNat, encodeNat, h, ofNatDigits_natDigits]

theorem parseNats_encode (l rest : List Nat) :
    parseNats l.length (l.flatMap encodeNat ++ rest) = some (l, rest) := by
  induction l generalizing rest with
  | nil => simp [parseNats]
  | cons x xs ih =>
    simp only [List.length_cons, List.flatMap_cons, List.append_assoc, parseNats,
      parseNat_encodeNat, Option.bind_eq_bind, Option.some_bind, ih]
    rfl

theorem parseNatList_encode (l rest : List Nat) :
    parseNatList (encodeNatList l ++ rest) = some (l, rest) := by
  simp only [parseNatList, encodeNatList, List.append_assoc, parseNat_encodeNat,
    Option.bind_eq_bind, Option.some_bind]
  exact parseNats_encode l rest

/-- Every byte of an `encodeNat` run is a genuine byte. -/
theorem mem_encodeNat_lt {n d : Nat} (h : d ∈ encodeNat n) : d < 256 := by
  simp only [encodeNat, List.mem_append, List.mem_singleton] at h
  rcases h with h | h
  · have := @mem_natDigitsFuel_lt n n d h
    omega
  · omega

theorem mem_encodeNatList_lt {l : List Nat} {d : Nat} (h : d ∈ encodeNatList l) :
    d < 256 := by
  simp only [encodeNatList, List.mem_append, List.mem_flatMap] at h
  rcases h with h | ⟨_, _, h⟩ <;> exact mem_encodeNat_lt h

/-- Every byte of a model ciphertext is a genuine byte, so the hex codec
round-trips on it. -/
theorem mem_aesGcmEncrypt_lt {key : CryptoKey} {iv msg : List Nat} {d : Nat}
    (h : d ∈ aesGcmEncrypt key iv msg) : d < 256 := by
  simp only [aesGcmEncrypt, List.mem_append] at h
  rcases h with ((h | h) | h) | h <;> exact mem_encodeNatList_lt h

/-- The ideal-AEAD round trip. -/
theorem aesGcmDecrypt_aesGcmEncrypt (key : CryptoKey) (iv msg : List Nat) :
    aesGcmDecrypt key iv (aesGcmEncrypt key iv msg) = some msg := by
  have h4 : parseNatList (encodeNatList msg) = some (msg, []) := by
    simpa using parseNatList_encode msg []
  simp [aesGcmDecrypt, aesGcmEncrypt, parseNatList_encode, h4]

/-- Decryption under a key with different key material always fails. -/
theorem aesGcmDecrypt_wrong_key {key key' : CryptoKey} (iv iv' msg : List Nat)
    (hne : key'.keyMaterial ≠ key.keyMaterial) :
    aesGcmDecrypt key' iv' (aesGcmEncrypt key iv msg) = none := by
  have h4 : parseNatList (encodeNatList msg) = some (msg, []) := by
    simpa using parseNatList_encode msg []
  simp only [aesGcmDecrypt, aesGcmEncrypt, List.append_assoc, parseNatList_encode,
    Option.bind_eq_bind, Option.some_bind, h4, ite_eq_right_iff, and_imp]
  intro hk _ _
  exact absurd hk.symm hne

/-! Section: Hex and text codec lemmas -/

theorem hexVal_hexDigit {d : Nat} (h : d < 16) : hexVal (hexDigit d) = d := by
  interval_cases d <;> decide

theorem fromHexChars_flatMap (l : List Nat) (h : ∀ b ∈ l, b < 256) :
    fromHexChars (l.flatMap toHexByte) = l := by
  induction l with
  | nil => rfl
  | cons b bs ih =>
    have hb : b < 256 := h b (List.mem_cons_self b bs)
    have hbs : ∀ x ∈ bs, x < 256 := fun x hx => h x (List.mem_cons_of_mem b hx)
    have hdiv : b / 16 < 16 := by omega
    have hmod : b % 16 < 16 := Nat.mod_lt _ (by omega)
    show fromHexChars (toHexByte b ++ bs.flatMap toHexByte) = b :: bs
    simp only [toHexByte, List.cons_append, List.nil_append, List.append_nil,
      List.nil_append, fromHexChars]
    rw [hexVal_hexDigit hdiv, hexVal_hexDigit hmod, List.append_eq,
      List.nil_append, ih hbs]
    congr 1
    omega

/-- The hex codec round-trips on genuine byte buffers. -/
theorem fromHex_toHex (l : List Nat) (h : ∀ b ∈ l, b < 256) :
    fromHex (toHex l) = l :=
  fromHexChars_flatMap l h

theorem char_toNat_injective : Function.Injective Char.toNat :=
  Function.LeftInverse.injective Char.ofNat_toNat

theorem textDecode_textEncode (s : String) : textDecode (textEncode s) = s := by
  simp only [textDecode, textEncode, List.map_map]
  have : (Char.ofNat ∘ Char.toNat) = id := funext Char.ofNat_toNat
  rw [this, List.map_id]

theorem getPasswordKey_injective : Function.Injective getPasswordKey := by
  intro p1 p2 h
  exact String.ext (List.map_injective_iff.mpr char_toNat_injective h)

/-- Fixed-offset slices of a packed `salt ‖ iv ‖ ciphertext` buffer. -/
theorem packed_slices (salt iv ct : List Nat)
    (hs : salt.length = 16) (hi : iv.length = 12) :
    (salt ++ iv ++ ct).take 16 = salt ∧
    ((salt ++ iv ++ ct).drop 16).take 12 = iv ∧
    (salt ++ iv ++ ct).drop 28 = ct := by
  refine ⟨?_, ?_, ?_⟩
  · rw [List.append_assoc]
    exact List.take_left' hs
  · rw [List.append_assoc, List.drop_left' hs]
    exact List.take_left' hi
  · exact List.drop_left' (by simp [hs, hi])

end TMVault

namespace TMVault

/-! Section: Claim theorems for the cipher layer -/

/-- Claim C1: for every string `t`, password `p` and any random salt/iv drawn
during encryption, `decryptData` applied to the payload of
`encryptData t p` — its ciphertext, iv and salt hex fields with the same
password — returns exactly `t`. -/
theorem text_cipher_roundtrip (t p : String) (randSalt randIv : List Nat)
    (hs : ∀ b ∈ randSalt, b < 256) (hi : ∀ b ∈ randIv, b < 256) :
    decryptData (encryptData t p none randSalt randIv).ciphertext
      (encryptData t p none randSalt randIv).iv
      (encryptData t p none randSalt randIv).salt p = some t := by
  simp only [encryptData, decryptData, jsTruthy, Bool.false_eq_true, if_false]
  rw [fromHex_toHex _ hs, fromHex_toHex _ hi,
    fromHex_toHex _ (fun d hd => mem_aesGcmEncrypt_lt hd),
    aesGcmDecrypt_aesGcmEncrypt]
  simp [textDecode_textEncode]

theorem text_cipher_roundtrip_witness :
    decryptData
      (encryptData "hi" "pw" none (List.replicate 16 0) (List.replicate 12 1)).ciphertext
      (encryptData "hi" "pw" none (List.replicate 16 0) (List.replicate 12 1)).iv
      (encryptData "hi" "pw" none (List.replicate 16 0) (List.replicate 12 1)).salt
      "pw" = some "hi" :=
  text_cipher_roundtrip "hi" "pw" (List.replicate 16 0) (List.replicate 12 1)
    (by decide) (by decide)

/-- Shared helper: the file-cipher round trip. -/
theorem decryptFile_encryptFile (b : List Nat) (p : String)
    (randSalt randIv : List Nat)
    (hs : randSalt.length = 16) (hi : randIv.length = 12) :
    decryptFile (encryptFile b p randSalt randIv) p = some b := by
  obtain ⟨h1, h2, h3⟩ := packed_slices randSalt randIv
    (aesGcmEncrypt (deriveKey (getPasswordKey p) randSalt) randIv b) hs hi
  simp only [decryptFile, encryptFile, h1, h2, h3]
  exact aesGcmDecrypt_aesGcmEncrypt _ _ _

/-- Claim C2: for every byte buffer `b` and password `p`,
`decryptFile (encryptFile b p) p` returns a buffer byte-for-byte equal to
`b`, for any random 16-byte salt and 12-byte iv drawn inside `encryptFile`. -/
theorem file_cipher_roundtrip (b : List Nat) (p : String)
    (randSalt randIv : List Nat)
    (hs : randSalt.length = 16) (hi : randIv.length = 12) :
    decryptFile (encryptFile b p randSalt randIv) p = some b :=
  decryptFile_encryptFile b p randSalt randIv hs hi

theorem file_cipher_roundtrip_witness :
    decryptFile
      (encryptFile [7, 8, 9] "pw" (List.replicate 16 2) (List.replicate 12 3))
      "pw" = some [7, 8, 9] :=
  file_cipher_roundtrip [7, 8, 9] "pw" (List.replicate 16 2)
    (List.replicate 12 3) (by decide) (by decide)

/-- Claim C3: for every plaintext `t` and distinct passwords `p1 ≠ p2`,
decrypting the payload of `encryptData t p1` with `p2` fails with the
model's single undifferentiated failure value `none` (the
`DecryptionError`), the same value every authentication failure produces,
so the caller cannot distinguish a wrong password from corrupted
ciphertext. -/
theorem wrong_key_rejected (t p1 p2 : String) (hne : p1 ≠ p2)
    (randSalt randIv : List Nat)
    (hs : ∀ b ∈ randSalt, b < 256) (hi : ∀ b ∈ randIv, b < 256) :
    decryptData (encryptData t p1 none randSalt randIv).ciphertext
      (encryptData t p1 none randSalt randIv).iv
      (encryptData t p1 none randSalt randIv).salt p2 = none := by
  simp only [encryptData, decryptData, jsTruthy, Bool.false_eq_true, if_false]
  rw [fromHex_toHex _ hs, fromHex_toHex _ hi,
    fromHex_toHex _ (fun d hd => mem_aesGcmEncrypt_lt hd),
    aesGcmDecrypt_wrong_key _ _ _ (fun h => hne (getPasswordKey_injective h).symm)]
  rfl

theorem wrong_key_rejected_witness :
    decryptData (encryptData "hi" "a" none (List.replicate 16 0) (List.replicate 12 1)).ciphertext
      (encryptData "hi" "a" none (List.replicate 16 0) (List.replicate 12 1)).iv
      (encryptData "hi" "a" none (List.replicate 16 0) (List.replicate 12 1)).salt
      "b" = none :=
  wrong_key_rejected "hi" "a" "b" (by decide) (List.replicate 16 0)
    (List.replicate 12 1) (by decide) (by decide)

/-- Claim C4: `encryptFile` output has length exactly `28 + ciphertext_len`
and is laid out as salt in bytes `[0,16)`, iv in `[16,28)` and
ciphertext-with-tag from byte 28; `decryptFile` slices exactly these
offsets, so the packed blob is decryptable given only the password. -/
theorem packed_file_layout (b : List Nat) (p : String)
    (randSalt randIv : List Nat)
    (hs : randSalt.length = 16) (hi : randIv.length = 12) :
    (encryptFile b p randSalt randIv).length
        = 28 + (aesGcmEncrypt (deriveKey (getPasswordKey p) randSalt) randIv b).length ∧
    (encryptFile b p randSalt randIv).take 16 = randSalt ∧
    ((encryptFile b p randSalt randIv).drop 16).take 12 = randIv ∧
    (encryptFile b p randSalt randIv).drop 28
        = aesGcmEncrypt (deriveKey (getPasswordKey p) randSalt) randIv b ∧
    decryptFile (encryptFile b p randSalt randIv) p = some b := by
  obtain ⟨h1, h2, h3⟩ := packed_slices randSalt randIv
    (aesGcmEncrypt (deriveKey (getPasswordKey p) randSalt) randIv b) hs hi
  refine ⟨?_, h1, h2, h3, decryptFile_encryptFile b p randSalt randIv hs hi⟩
  simp only [encryptFile, List.length_append, hs, hi]

theorem packed_file_layout_witness :
    (encryptFile [5] "pw" (List.replicate 16 2) (List.replicate 12 3)).length
        = 28 + (aesGcmEncrypt (deriveKey (getPasswordKey "pw") (List.replicate 16 2))
            (List.replicate 12 3) [5]).length ∧
    (encryptFile [5] "pw" (List.replicate 16 2) (List.replicate 12 3)).take 16
        = List.replicate 16 2 ∧
    ((encryptFile [5] "pw" (List.replicate 16 2) (List.replicate 12 3)).drop 16).take 12
        = List.replicate 12 3 ∧
    (encryptFile [5] "pw" (List.replicate 16 2) (List.replicate 12 3)).drop 28
        = aesGcmEncrypt (deriveKey (getPasswordKey "pw") (List.replicate 16 2))
            (List.replicate 12 3) [5] ∧
    decryptFile (encryptFile [5] "pw" (List.replicate 16 2) (List.replicate 12 3))
      "pw" = some [5] :=
  packed_file_layout [5] "pw" (List.replicate 16 2) (List.replicate 12 3)
    (by decide) (by decide)

/-- Claim C8 counterexample: a caller-supplied salt is *not* always returned
unchanged in the payload — `encryptData` re-encodes it through
`toHex (fromHex ·)`, which lowercases: supplying `"AB"` yields salt `"ab"`. -/
theorem provided_salt_not_returned_verbatim :
    (encryptData "x" "p" (some "AB") [] []).salt ≠ "AB" := by decide

/-- Hex encoding of a nonempty byte buffer is a nonempty (hence JS-truthy)
string. -/
theorem toHex_ne_empty {bytes : List Nat} (h : bytes ≠ []) : toHex bytes ≠ "" := by
  cases bytes with
  | nil => exact absurd rfl h
  | cons b bs =>
    intro hcontra
    have hdata : (b :: bs).flatMap toHexByte = ([] : List Char) :=
      congrArg String.data hcontra
    simp [toHexByte] at hdata

/-- Claim C8 (amended): when no salt is supplied — and also when the
supplied salt string is empty, which JS truthiness treats as no salt — the
payload's salt is the hex of the 16 freshly drawn random bytes; when a
nonempty salt string is supplied, its decoded bytes are reused for key
derivation and the payload's salt is their canonical lowercase re-encoding
`toHex (fromHex s)` — equal to the supplied string whenever it is itself a
(nonempty) canonical hex encoding of bytes; in every case the iv is the hex
of the freshly drawn 12 random bytes. -/
theorem encryptData_salt_iv_selection (t p s : String)
    (randSalt randIv : List Nat) :
    (encryptData t p none randSalt randIv).salt = toHex randSalt ∧
    (encryptData t p none randSalt randIv).iv = toHex randIv ∧
    (encryptData t p (some "") randSalt randIv).salt = toHex randSalt ∧
    (s ≠ "" → (encryptData t p (some s) randSalt randIv).salt
        = toHex (fromHex s)) ∧
    (encryptData t p (some s) randSalt randIv).iv = toHex randIv ∧
    (s ≠ "" → (encryptData t p (some s) randSalt randIv).ciphertext
        = toHex (aesGcmEncrypt (deriveKey (getPasswordKey p) (fromHex s))
            randIv (textEncode t))) ∧
    (∀ bytes : List Nat, bytes ≠ [] → (∀ x ∈ bytes, x < 256) →
        (encryptData t p (some (toHex bytes)) randSalt randIv).salt = toHex bytes) := by
  have htr : ∀ u : String, u ≠ "" → jsTruthy (some u) = true := by
    intro u hu; simp [jsTruthy, hu]
  refine ⟨rfl, rfl, rfl, fun hs => ?_, rfl, fun hs => ?_, fun bytes hne hb => ?_⟩
  · simp only [encryptData, htr s hs, if_true, Option.getD_some]
  · simp only [encryptData, htr s hs, if_true, Option.getD_some]
  · simp only [encryptData, htr (toHex bytes) (toHex_ne_empty hne), if_true,
      Option.getD_some, fromHex_toHex bytes hb]

theorem encryptData_salt_iv_selection_witness :
    ("ab" ≠ "" ∧
      (encryptData "x" "p" (some "ab") [] []).salt = toHex (fromHex "ab")) ∧
    (([171] : List Nat) ≠ [] ∧
      (encryptData "x" "p" (some (toHex [171])) [] []).salt = toHex [171]) :=
  ⟨⟨by decide,
      (encryptData_salt_iv_selection "x" "p" "ab" [] []).2.2.2.1 (by decide)⟩,
    ⟨by decide,
      (encryptData_salt_iv_selection "x" "p" "" [] []).2.2.2.2.2.2 [171]
        (by decide) (by decide)⟩⟩

/-! Section: Vault session (`App.tsx`)

The session-relevant component state of `App` — `selectedNoteId`,
`unlockPassword`, `decryptedCache`, `lockTimerRef` — as a state machine.
`lockTimerRef` holds a pending `setTimeout`; it is modelled as the
deadline (`now + 60` seconds) at which its callback fires, and `tick`
models the event loop running the callback once time passes the deadline.
The attachment preview caches, which `handleSelectNote`/`handleUnlock`
also touch via `indexAttachments`, are modelled separately (see
`indexAttachments` below); they never hold note plaintext. -/

/-- A stored note as consumed by the session layer (the `Note` record). -/
structure NoteRec where
  id : String
  title : String
  content : String
  is_encrypted : Bool
  iv : Option String
  salt : Option String
  attachments : List String
deriving DecidableEq, Repr

/-- One entry of `decryptedCache`: `{ title, content }` in plaintext. -/
structure DecEntry where
  title : String
  content : String
deriving DecidableEq, Repr

/-- JS object spread `{ ...prev, [k]: v }` on a string-keyed record. -/
def objInsert {β : Type} (k : String) (v : β) (m : List (String × β)) :
    List (String × β) :=
  (k, v) :: m.filter (fun e => e.1 != k)

structure VaultState where
  notes : List NoteRec
  selectedNoteId : Option String
  unlockPassword : String
  decryptedCache : List (String × DecEntry)
  timerExpiry : Option Nat
  now : Nat
  isEditing : Bool
  isCreating : Bool
deriving Repr

/-- Accessor `selectedNote = notes.find(n => n.id === selectedNoteId)`. -/
def VaultState.selectedNote (s : VaultState) : Option NoteRec :=
  match s.selectedNoteId with
  | some nid => s.notes.find? (fun n => n.id == nid)
  | none => none

/-- The UI events that drive the session state: selecting a note,
submitting the unlock form, typing in the password field, opening the
editor (read/edit activity), and the passage of time. -/
inductive VaultEvent
  | selectNote (id : String)
  | unlock
  | typePassword (pw : String)
  | beginEdit
  | tick (dt : Nat)
deriving DecidableEq, Repr

/-- One step of the session state machine, transcribing `handleSelectNote`,
`handleUnlock` and the `setTimeout` callback from `App.tsx`. -/
def vaultStep (s : VaultState) (e : VaultEvent) : VaultState :=
  match e with
  | .selectNote id =>
      { s with decryptedCache := [],
               timerExpiry := none,
               selectedNoteId := some id,
               isCreating := false,
               isEditing := false,
               unlockPassword := "" }
  | .unlock =>
      match s.selectedNote with
      | none => s
      | some note =>
        match decryptData note.content (note.iv.getD "") (note.salt.getD "")
            s.unlockPassword with
        | some content =>
            { s with
                decryptedCache :=
                  objInsert note.id ⟨note.title, content⟩ s.decryptedCache,
                timerExpiry := some (s.now + 60) }
        | none => s
  | .typePassword pw => { s with unlockPassword := pw }
  | .beginEdit => { s with isEditing := true }
  | .tick dt =>
      match s.timerExpiry with
      | some e' =>
          if e' ≤ s.now + dt then
            { s with now := s.now + dt, decryptedCache := [],
                     unlockPassword := "", isEditing := false,
                     timerExpiry := none }
          else { s with now := s.now + dt }
      | none => { s with now := s.now + dt }

/-- Fresh component state: all caches empty, no timer pending. -/
def initVault (notes : List NoteRec) : VaultState :=
  { notes := notes, selectedNoteId := none, unlockPassword := "",
    decryptedCache := [], timerExpiry := none, now := 0,
    isEditing := false, isCreating := false }

inductive VaultReachable (notes : List NoteRec) : VaultState → Prop
  | init : VaultReachable notes (initVault notes)
  | step (s : VaultState) (e : VaultEvent) :
      VaultReachable notes s → VaultReachable notes (vaultStep s e)

/-- The session invariant: at most one cached plaintext, cached only under
the selected note's id, and any cached plaintext is covered by a pending
auto-lock deadline that has not yet been reached. -/
def VaultInv (s : VaultState) : Prop :=
  s.decryptedCache.length ≤ 1 ∧
  (∀ kv ∈ s.decryptedCache, s.selectedNoteId = some kv.1) ∧
  (s.decryptedCache ≠ [] → ∃ e, s.timerExpiry = some e ∧ s.now < e)

theorem vaultInv_init (notes : List NoteRec) : VaultInv (initVault notes) := by
  refine ⟨by simp [initVault], ?_, ?_⟩ <;> simp [initVault]

theorem vaultInv_step (s : VaultState) (e : VaultEvent) (h : VaultInv s) :
    VaultInv (vaultStep s e) := by
  obtain ⟨hlen, hkey, htimer⟩ := h
  cases e with
  | selectNote id => refine ⟨by simp [vaultStep], ?_, ?_⟩ <;> simp [vaultStep]
  | typePassword pw => exact ⟨hlen, hkey, htimer⟩
  | beginEdit => exact ⟨hlen, hkey, htimer⟩
  | unlock =>
    cases hfind : s.selectedNote with
    | none => simpa only [vaultStep, hfind] using ⟨hlen, hkey, htimer⟩
    | some note =>
      cases hdec : decryptData note.content (note.iv.getD "") (note.salt.getD "")
          s.unlockPassword with
      | none => simpa only [vaultStep, hfind, hdec] using ⟨hlen, hkey, htimer⟩
      | some content =>
        have hid : s.selectedNoteId = some note.id := by
          unfold VaultState.selectedNote at hfind
          cases hsel : s.selectedNoteId with
          | none => rw [hsel] at hfind; exact absurd hfind (by simp)
          | some nid =>
            rw [hsel] at hfind
            have hbeq := List.find?_some hfind
            have hni : note.id = nid := eq_of_beq hbeq
            rw [hni]
        have hfilter : s.decryptedCache.filter (fun e => e.1 != note.id) = [] := by
          rw [List.filter_eq_nil_iff]
          intro kv hkv
          have hk := hkey kv hkv
          rw [hid] at hk
          simp [Option.some_inj.mp hk]
        simp only [vaultStep, hfind, hdec]
        refine ⟨?_, ?_, ?_⟩
        · simp [objInsert, hfilter]
        · intro kv hkv
          simp only [objInsert, hfilter, List.mem_singleton] at hkv
          rw [hkv, hid]
        · intro _
          refine ⟨s.now + 60, rfl, ?_⟩
          show s.now < s.now + 60
          omega
  | tick dt =>
    cases htm : s.timerExpiry with
    | none =>
      simp only [vaultStep, htm]
      refine ⟨hlen, hkey, fun hne => ?_⟩
      obtain ⟨e', he', _⟩ := htimer hne
      rw [htm] at he'
      exact absurd he' (by simp)
    | some e' =>
      by_cases hle : e' ≤ s.now + dt
      · simp only [vaultStep, htm, hle, if_true]
        refine ⟨by simp, by simp, by simp⟩
      · simp only [vaultStep, htm, hle, if_false]
        refine ⟨hlen, hkey, fun hne => ?_⟩
        refine ⟨e', rfl, ?_⟩
        show s.now + dt < e'
        omega

theorem vaultInv_reachable {notes : List NoteRec} {s : VaultState}
    (h : VaultReachable notes s) : VaultInv s := by
  induction h with
  | init => exact vaultInv_init notes
  | step s e _ ih => exact vaultInv_step s e ih

/-- Claim C5: in every reachable session state the decrypted-plaintext cache
holds at most one note's plaintext; `selectNote` unconditionally clears the
cache and cancels the pending auto-lock timer — for any target id, even the
currently selected or an unencrypted note — so after an unlock of note A
followed by `selectNote B` the cache holds plaintext for neither A nor B. -/
theorem session_exclusivity (notes : List NoteRec) :
    (∀ s, VaultReachable notes s → s.decryptedCache.length ≤ 1) ∧
    (∀ (s : VaultState) (id : String),
        (vaultStep s (.selectNote id)).decryptedCache = [] ∧
        (vaultStep s (.selectNote id)).timerExpiry = none) ∧
    (∀ (s : VaultState) (idA idB : String),
        List.lookup idA
          ((vaultStep (vaultStep s .unlock) (.selectNote idB)).decryptedCache)
          = none ∧
        List.lookup idB
          ((vaultStep (vaultStep s .unlock) (.selectNote idB)).decryptedCache)
          = none) := by
  refine ⟨fun s hs => (vaultInv_reachable hs).1, fun s id => ⟨rfl, rfl⟩,
    fun s idA idB => ⟨rfl, rfl⟩⟩

theorem session_exclusivity_witness :
    (initVault []).decryptedCache.length ≤ 1 ∧
    (vaultStep (initVault []) (VaultEvent.selectNote "n1")).decryptedCache = [] :=
  ⟨(session_exclusivity []).1 (initVault []) VaultReachable.init,
    ((session_exclusivity []).2.1 (initVault []) "n1").1⟩

/-- Claim C6: once the auto-lock deadline set by a successful unlock is
reached, the session autonomously locks (plaintext cache and password
cleared, timer gone); in every reachable state cached plaintext is covered
by a live deadline; read/edit activity (typing the password, opening the
editor) never changes the timer; and the only event that schedules a
deadline is a successful unlock, which sets it 60 seconds out, replacing
any prior pending timer. -/
theorem auto_lock (notes : List NoteRec) :
    (∀ (s : VaultState) (e dt : Nat), s.timerExpiry = some e → e ≤ s.now + dt →
        (vaultStep s (.tick dt)).decryptedCache = [] ∧
        (vaultStep s (.tick dt)).timerExpiry = none ∧
        (vaultStep s (.tick dt)).unlockPassword = "") ∧
    (∀ s, VaultReachable notes s → s.decryptedCache ≠ [] →
        ∃ e, s.timerExpiry = some e ∧ s.now < e) ∧
    (∀ (s : VaultState) (pw : String),
        (vaultStep s (.typePassword pw)).timerExpiry = s.timerExpiry ∧
        (vaultStep s (.typePassword pw)).decryptedCache = s.decryptedCache ∧
        (vaultStep s .beginEdit).timerExpiry = s.timerExpiry ∧
        (vaultStep s .beginEdit).decryptedCache = s.decryptedCache) ∧
    (∀ s : VaultState,
        (vaultStep s .unlock).timerExpiry = s.timerExpiry ∨
        (vaultStep s .unlock).timerExpiry = some (s.now + 60)) := by
  refine ⟨?_, fun s hs => (vaultInv_reachable hs).2.2, fun s pw => ⟨rfl, rfl, rfl, rfl⟩, ?_⟩
  · intro s e dt he hle
    simp [vaultStep, he, hle]
  · intro s
    cases hfind : s.selectedNote with
    | none => left; simp only [vaultStep, hfind]
    | some note =>
      cases hdec : decryptData note.content (note.iv.getD "") (note.salt.getD "")
          s.unlockPassword with
      | none => left; simp only [vaultStep, hfind, hdec]
      | some content => right; simp only [vaultStep, hfind, hdec]

/-- A concrete encrypted note whose stored ciphertext/iv/salt come from
`encryptData "hello" "pw"` at fixed random bytes, used to exercise the
auto-lock theorem on a genuinely unlocked state. -/
def autoLockDemoNote : NoteRec :=
  { id := "n1", title := "T",
    content := (encryptData "hello" "pw" none (List.replicate 16 0)
      (List.replicate 12 1)).ciphertext,
    is_encrypted := true,
    iv := some (encryptData "hello" "pw" none (List.replicate 16 0)
      (List.replicate 12 1)).iv,
    salt := some (encryptData "hello" "pw" none (List.replicate 16 0)
      (List.replicate 12 1)).salt,
    attachments := [] }

/-- The reachable state after selecting `autoLockDemoNote`, typing its
password and unlocking: plaintext cached, auto-lock deadline pending. -/
def autoLockDemoState : VaultState :=
  vaultStep (vaultStep (vaultStep (initVault [autoLockDemoNote])
    (VaultEvent.selectNote "n1")) (VaultEvent.typePassword "pw"))
    VaultEvent.unlock

theorem auto_lock_witness :
    autoLockDemoState.timerExpiry = some 60 ∧
    autoLockDemoState.decryptedCache ≠ [] ∧
    ((vaultStep autoLockDemoState (VaultEvent.tick 60)).decryptedCache = [] ∧
      (vaultStep autoLockDemoState (VaultEvent.tick 60)).timerExpiry = none ∧
      (vaultStep autoLockDemoState (VaultEvent.tick 60)).unlockPassword = "") ∧
    (∃ e, autoLockDemoState.timerExpiry = some e ∧ autoLockDemoState.now < e) :=
  ⟨by decide, by decide,
    (auto_lock [autoLockDemoNote]).1 autoLockDemoState 60 60 (by decide)
      (by decide),
    (auto_lock [autoLockDemoNote]).2.1 autoLockDemoState
      (VaultReachable.step _ VaultEvent.unlock
        (VaultReachable.step _ (VaultEvent.typePassword "pw")
          (VaultReachable.step _ (VaultEvent.selectNote "n1")
            VaultReachable.init)))
      (by decide)⟩

/-! Section: File-name helpers and the attachment indexer (`App.tsx`) -/

/-- JS `String.prototype.split` with a one-character separator, on character
lists; `"".split(sep)` is `[""]` and a trailing separator yields a final
empty field, as in JS. -/
def splitChar (sep : Char) : List Char → List (List Char)
  | [] => [[]]
  | c :: rest =>
    let r := splitChar sep rest
    if c = sep then [] :: r
    else
      match r with
      | [] => [[c]]
      | h :: t => (c :: h) :: t

def isDigitChar (c : Char) : Bool := '0' ≤ c && c ≤ '9'

/-- Model of `name.replace(/^\^\d+_/, '')`: strip a leading literal `^`, one or more
digits and an underscore, when present. -/
def stripUploadTag (l : List Char) : List Char :=
  match l with
  | '^' :: rest =>
    let digits := rest.takeWhile isDigitChar
    if digits.isEmpty then l
    else
      match rest.drop digits.length with
      | '_' :: tail => tail
      | _ => l
  | _ => l

/-- Function `getFileNameFromPath` from `App.tsx`:
`path.split('/').pop()?.replace(/^\^\d+_/, '') || 'Unknown File'`. -/
def getFileNameFromPath (path : String) : String :=
  let name := stripUploadTag ((splitChar '/' path.data).getLastD [])
  if name.isEmpty then "Unknown File" else ⟨name⟩

/-- ASCII case of JS `toLowerCase`, the only case file extensions need. -/
def jsToLowerChar (c : Char) : Char :=
  if 'A' ≤ c && c ≤ 'Z' then Char.ofNat (c.toNat + 32) else c

/-- Model of `filename.split('.').pop()?.toLowerCase()` (with `?? ''`). -/
def extOf (filename : String) : String :=
  ⟨((splitChar '.' filename.data).getLastD []).map jsToLowerChar⟩

/-- Predicate `isTextFile` from `App.tsx`. -/
def isTextFile (filename : String) : Bool :=
  ["txt", "md", "json", "js", "ts", "log", "html", "css", "csv"].contains
    (extOf filename)

/-- Predicate `isImageFile` from `App.tsx`. -/
def isImageFile (filename : String) : Bool :=
  ["png", "jpg", "jpeg", "gif", "webp", "svg", "bmp"].contains (extOf filename)

/-- JS falsiness of `cache[path]`: missing key or empty-string value. -/
def jsFalsyLookup : Option String → Bool
  | none => true
  | some s => s == ""

/-- The two attachment preview caches
(`attachmentTextCache` / `attachmentImageCache`). -/
structure AttachmentCaches where
  textCache : List (String × String)
  imageCache : List (String × String)
deriving DecidableEq, Repr

/-- Modelled from the spec: `FileReader.readAsDataURL` producing "a
renderable-image encoding" of the bytes (platform API; the exact base64
data-URL text is presentational, so the model uses a hex data string). -/
def readAsDataURL (bytes : List Nat) : String := "data:" ++ toHex bytes

/-- The body of the per-path loop of `indexAttachments` in `App.tsx`.
`download` is the `db.downloadFile` collaborator, `none` modelling a thrown
fetch error; a `none` from `decryptFile` models its thrown decryption
error; in either case the `catch` leaves the caches unchanged.  The
computed MIME type only tags the resulting `Blob` and is not modelled. -/
def processAttachmentPath (note : NoteRec) (password : Option String)
    (download : String → Option (List Nat)) (c : AttachmentCaches)
    (path : String) : AttachmentCaches :=
  let filename := getFileNameFromPath path
  if isTextFile filename && jsFalsyLookup (List.lookup path c.textCache) then
    match download path with
    | none => c
    | some blob =>
      let finalBlob := if note.is_encrypted && jsTruthy password
        then decryptFile blob (password.getD "") else some blob
      match finalBlob with
      | none => c
      | some fb =>
          { c with textCache := objInsert path (textDecode fb) c.textCache }
  else if isImageFile filename && jsFalsyLookup (List.lookup path c.imageCache) then
    match download path with
    | none => c
    | some blob =>
      let finalBlob := if note.is_encrypted && jsTruthy password
        then decryptFile blob (password.getD "") else some blob
      match finalBlob with
      | none => c
      | some fb =>
          { c with imageCache := objInsert path (readAsDataURL fb) c.imageCache }
  else c

/-- Function `indexAttachments` from `App.tsx`: sequential loop over the note's
attachment paths. -/
def indexAttachments (note : NoteRec) (password : Option String)
    (download : String → Option (List Nat)) (c : AttachmentCaches) :
    AttachmentCaches :=
  if note.attachments.isEmpty then c
  else note.attachments.foldl (processAttachmentPath note password download) c

theorem indexAttachments_eq_foldl (note : NoteRec) (password : Option String)
    (download : String → Option (List Nat)) (c : AttachmentCaches) :
    indexAttachments note password download c
      = note.attachments.foldl (processAttachmentPath note password download) c := by
  unfold indexAttachments
  split
  · rename_i h
    rw [List.isEmpty_iff.mp h]
    rfl
  · rfl

/-- A path whose download fails leaves the caches unchanged. -/
theorem processAttachmentPath_fetch_error (note : NoteRec)
    (password : Option String) (download : String → Option (List Nat))
    (c : AttachmentCaches) (path : String) (h : download path = none) :
    processAttachmentPath note password download c path = c := by
  unfold processAttachmentPath
  simp only [h]
  split
  · rfl
  · split <;> rfl

/-- Claim C7 counterexample: indexing an encrypted note's text attachment with
no password available does *not* skip the path — the guard
`note.is_encrypted && password` falls through to the raw bytes, so the
undecrypted download (here bytes 104 105, decoding to `"hi"`) is stored in
the text preview cache. -/
theorem indexing_without_password_not_skipped :
    List.lookup "u1/a.txt"
      (indexAttachments ⟨"n1", "t", "ct", true, none, none, ["u1/a.txt"]⟩ none
        (fun _ => some [104, 105]) ⟨[], []⟩).textCache = some "hi" := by decide

/-- Claim C7 (amended): during attachment indexing of an encrypted note with
no password available, a text or image path is still indexed using the raw
(undecrypted) downloaded bytes, whose decoding is stored in the
corresponding preview cache; and a failure on any single path — a fetch
error or a decryption error — is caught, leaves the caches unchanged for
that path, and does not abort the indexing of the remaining paths. -/
theorem indexing_failure_isolation :
    (∀ (note : NoteRec) (download : String → Option (List Nat))
        (c : AttachmentCaches) (path : String) (blob : List Nat),
        note.is_encrypted = true → download path = some blob →
        isTextFile (getFileNameFromPath path) = true →
        jsFalsyLookup (List.lookup path c.textCache) = true →
        processAttachmentPath note none download c path
          = { c with textCache := objInsert path (textDecode blob) c.textCache }) ∧
    (∀ (note : NoteRec) (download : String → Option (List Nat))
        (c : AttachmentCaches) (path : String) (blob : List Nat),
        note.is_encrypted = true → download path = some blob →
        isTextFile (getFileNameFromPath path) = false →
        isImageFile (getFileNameFromPath path) = true →
        jsFalsyLookup (List.lookup path c.imageCache) = true →
        processAttachmentPath note none download c path
          = { c with imageCache := objInsert path (readAsDataURL blob) c.imageCache }) ∧
    (∀ (note : NoteRec) (pw : String) (download : String → Option (List Nat))
        (c : AttachmentCaches) (path : String) (blob : List Nat),
        note.is_encrypted = true → jsTruthy (some pw) = true →
        download path = some blob → decryptFile blob pw = none →
        processAttachmentPath note (some pw) download c path = c) ∧
    (∀ (id title content : String) (enc : Bool) (iv salt : Option String)
        (xs ys : List String) (bad : String) (pw : Option String)
        (download : String → Option (List Nat)) (c : AttachmentCaches),
        download bad = none →
        indexAttachments ⟨id, title, content, enc, iv, salt, xs ++ bad :: ys⟩
            pw download c
          = indexAttachments ⟨id, title, content, enc, iv, salt, xs ++ ys⟩
            pw download c) := by
  refine ⟨?_, ?_, ?_, ?_⟩
  · intro note download c path blob henc hdl htxt hlk
    simp [processAttachmentPath, htxt, hlk, hdl, henc, jsTruthy]
  · intro note download c path blob henc hdl htxt himg hlk
    simp [processAttachmentPath, htxt, himg, hlk, hdl, henc, jsTruthy]
  · intro note pw download c path blob henc htr hdl hdec
    simp only [processAttachmentPath, hdl, henc, htr, Option.getD_some, hdec,
      Bool.and_self]
    split
    · rfl
    · split <;> rfl
  · intro id title content enc iv salt xs ys bad pw download c h
    rw [indexAttachments_eq_foldl, indexAttachments_eq_foldl]
    dsimp only
    have hfn : processAttachmentPath
          ⟨id, title, content, enc, iv, salt, xs ++ bad :: ys⟩ pw download
        = processAttachmentPath
          ⟨id, title, content, enc, iv, salt, xs ++ ys⟩ pw download := rfl
    rw [hfn, List.foldl_append, List.foldl_append, List.foldl_cons,
      processAttachmentPath_fetch_error _ pw download _ bad h]

/-! Section: Saving notes (`handleSaveNewNote` / `handleUpdateNote` in `App.tsx`)

The handlers are modelled as pure functions from the form state (plus the
explicit randomness and the `db.uploadFile` collaborator) to an outcome:
either a validation error — the early `return alert(...)` paths — or the
payload handed to `db.insertNote`/`db.updateNote` together with the trace
of cipher/store calls the run performs, in order.  A validation error
carries an empty trace: the source returns before any of those calls. -/

/-- One staged `File` awaiting upload: its name and bytes. -/
structure StagedFile where
  name : String
  data : List Nat
deriving DecidableEq, Repr

/-- The observable calls a save makes on the cipher layer and the external
stores. -/
inductive Effect
  | encryptFileCall (name : String)
  | uploadCall (name : String) (data : List Nat)
  | encryptTextCall
  | insertNoteCall
  | updateNoteCall
deriving DecidableEq, Repr

/-- The note payload handed to `db.insertNote` / `db.updateNote`. -/
structure NotePayload where
  title : String
  content : String
  is_encrypted : Bool
  category : String
  iv : Option String
  salt : Option String
  attachments : List String
  created_at : String
deriving DecidableEq, Repr

/-- The storage paths returned by `processFileUploads` (`App.tsx`):
one `db.uploadFile(fileToUpload, file.name)` per staged file, in order.
`uploadPath` is the collaborator's name-to-path mapping. -/
def processFileUploads (files : List StagedFile)
    (uploadPath : String → String) : List String :=
  files.map (fun f => uploadPath f.name)

/-- The cipher/store calls `processFileUploads` performs: each file is
encrypted first when `isEncrypted && password` is truthy (with its own
fresh salt/iv pair, supplied by `randF` for the i-th file), then uploaded. -/
def processFileUploadsEffects (files : List StagedFile) (isEncrypted : Bool)
    (password : String) (randF : Nat → List Nat × List Nat) : List Effect :=
  files.enum.flatMap (fun p =>
    if isEncrypted && password != "" then
      [Effect.encryptFileCall p.2.name,
       Effect.uploadCall p.2.name
         (encryptFile p.2.data password (randF p.1).1 (randF p.1).2)]
    else [Effect.uploadCall p.2.name p.2.data])

/-- The `newNote` form state. -/
structure NewNoteForm where
  title : String
  content : String
  encrypt : Bool
  password : String
  confirmPassword : String
  category : String
  date : String
deriving DecidableEq, Repr

/-- Outcome of a save: an early validation `alert` return, or the persisted
payload with the trace of calls made. -/
inductive SaveResult
  | validationError (msg : String)
  | saved (payload : NotePayload) (trace : List Effect)
deriving DecidableEq, Repr

/-- The cipher/store calls a save outcome performed. -/
def SaveResult.effects : SaveResult → List Effect
  | .validationError _ => []
  | .saved _ trace => trace

/-- ASCII whitespace trim, the JS `String.prototype.trim` on the characters
a title can start or end with. -/
def isJsSpace (c : Char) : Bool := c = ' ' || c = '\t' || c = '\n' || c = '\r'

def jsTrim (s : String) : String :=
  ⟨((s.data.dropWhile isJsSpace).reverse.dropWhile isJsSpace).reverse⟩

/-- Handler `handleSaveNewNote` from `App.tsx`.  `createdAt` stands for
`new Date(newNote.date).toISOString()`; `randSalt`/`randIv` are the random
bytes `encryptData` draws for the note content. -/
def handleSaveNewNote (form : NewNoteForm) (staged : List StagedFile)
    (uploadPath : String → String) (randF : Nat → List Nat × List Nat)
    (randSalt randIv : List Nat) (createdAt : String) : SaveResult :=
  if jsTrim form.title = "" then .validationError "Title required"
  else if form.encrypt && form.password == "" then
    .validationError "Password required for encryption"
  else if form.encrypt && form.password != form.confirmPassword then
    .validationError "Passwords do not match!"
  else
    let attachmentPaths := processFileUploads staged uploadPath
    let upEffects :=
      processFileUploadsEffects staged form.encrypt form.password randF
    if form.encrypt then
      let contentEnc := encryptData form.content form.password none randSalt randIv
      .saved ⟨form.title, contentEnc.ciphertext, true, form.category,
          some contentEnc.iv, some contentEnc.salt, attachmentPaths, createdAt⟩
        (upEffects ++ [.encryptTextCall, .insertNoteCall])
    else
      .saved ⟨form.title, form.content, false, form.category, none, none,
          attachmentPaths, createdAt⟩
        (upEffects ++ [.insertNoteCall])

/-- The `editForm` state. -/
structure EditForm where
  title : String
  content : String
  category : String
  is_encrypted : Bool
  password : String
  confirmPassword : String
  date : String
deriving DecidableEq, Repr

/-- Outcome of an update: the silent no-selection return, a validation
`alert` return, or the payload passed to `db.updateNote` with the trace of
calls made. -/
inductive UpdateResult
  | noSelection
  | validationError (msg : String)
  | saved (payload : NotePayload) (trace : List Effect)
deriving DecidableEq, Repr

def UpdateResult.effects : UpdateResult → List Effect
  | .saved _ trace => trace
  | _ => []

/-- Handler `handleUpdateNote` from `App.tsx`: the working password is
`editForm.password || unlockPassword`; an encrypted save re-encrypts the
content with a fresh salt and iv, an unencrypted save nulls out
`iv`/`salt`; existing attachments are kept in front of the new uploads. -/
def handleUpdateNote (selectedNote : Option NoteRec) (editForm : EditForm)
    (unlockPassword : String) (staged : List StagedFile)
    (existingAttachments : List String) (uploadPath : String → String)
    (randF : Nat → List Nat × List Nat) (randSalt randIv : List Nat)
    (createdAt : String) : UpdateResult :=
  match selectedNote with
  | none => .noSelection
  | some _ =>
    let pwd := if editForm.password != "" then editForm.password else unlockPassword
    if editForm.is_encrypted && pwd == "" then
      .validationError "Password required to save encrypted note"
    else
      let newPaths := processFileUploads staged uploadPath
      let upEffects :=
        processFileUploadsEffects staged editForm.is_encrypted pwd randF
      let combined := existingAttachments ++ newPaths
      if editForm.is_encrypted then
        let contentEnc := encryptData editForm.content pwd none randSalt randIv
        .saved ⟨editForm.title, contentEnc.ciphertext, true, editForm.category,
            some contentEnc.iv, some contentEnc.salt, combined, createdAt⟩
          (upEffects ++ [.encryptTextCall, .updateNoteCall])
      else
        .saved ⟨editForm.title, editForm.content, false, editForm.category,
            none, none, combined, createdAt⟩
          (upEffects ++ [.updateNoteCall])

theorem indexing_failure_isolation_witness :
    processAttachmentPath ⟨"n1", "t", "ct", true, none, none, ["u1/a.txt"]⟩ none
        (fun _ => some [104, 105]) ⟨[], []⟩ "u1/a.txt"
      = { textCache := objInsert "u1/a.txt" (textDecode [104, 105]) [],
          imageCache := [] } ∧
    indexAttachments ⟨"n1", "t", "ct", false, none, none, ["p1"] ++ "p2" :: ["p3"]⟩
        none (fun _ => none) ⟨[], []⟩
      = indexAttachments ⟨"n1", "t", "ct", false, none, none, ["p1"] ++ ["p3"]⟩
        none (fun _ => none) ⟨[], []⟩ :=
  ⟨indexing_failure_isolation.1 ⟨"n1", "t", "ct", true, none, none, ["u1/a.txt"]⟩
      (fun _ => some [104, 105]) ⟨[], []⟩ "u1/a.txt" [104, 105] rfl rfl
      (by decide) (by decide),
    indexing_failure_isolation.2.2.2 "n1" "t" "ct" false none none
      ["p1"] ["p3"] "p2" none (fun _ => none) ⟨[], []⟩ rfl⟩

/-- Claim C9: a save requested with encryption enabled but no password
supplied fails with a validation error and performs no cipher call, upload
or database write (its effect trace is empty) — both on create and on
update, where the password falls back to the unlock password. -/
theorem missing_password_fails_before_effects :
    (∀ (form : NewNoteForm) (staged : List StagedFile)
        (uploadPath : String → String) (randF : Nat → List Nat × List Nat)
        (randSalt randIv : List Nat) (createdAt : String),
        form.encrypt = true → form.password = "" →
        (∃ msg, handleSaveNewNote form staged uploadPath randF randSalt randIv
            createdAt = .validationError msg) ∧
        (handleSaveNewNote form staged uploadPath randF randSalt randIv
            createdAt).effects = []) ∧
    (∀ (note : NoteRec) (editForm : EditForm) (unlockPassword : String)
        (staged : List StagedFile) (existing : List String)
        (uploadPath : String → String) (randF : Nat → List Nat × List Nat)
        (randSalt randIv : List Nat) (createdAt : String),
        editForm.is_encrypted = true → editForm.password = "" →
        unlockPassword = "" →
        handleUpdateNote (some note) editForm unlockPassword staged existing
            uploadPath randF randSalt randIv createdAt
          = .validationError "Password required to save encrypted note" ∧
        (handleUpdateNote (some note) editForm unlockPassword staged existing
            uploadPath randF randSalt randIv createdAt).effects = []) := by
  constructor
  · intro form staged uploadPath randF randSalt randIv createdAt henc hpw
    unfold handleSaveNewNote
    by_cases ht : jsTrim form.title = ""
    · simp [ht, SaveResult.effects]
    · simp [ht, henc, hpw, SaveResult.effects]
  · intro note editForm unlockPassword staged existing uploadPath randF
      randSalt randIv createdAt henc hpw hup
    unfold handleUpdateNote
    simp [henc, hpw, hup, UpdateResult.effects]

theorem missing_password_fails_before_effects_witness :
    ((∃ msg, handleSaveNewNote ⟨"T", "c", true, "", "", "Personal", "d"⟩ []
        id (fun _ => ([], [])) [] [] "d" = .validationError msg) ∧
      (handleSaveNewNote ⟨"T", "c", true, "", "", "Personal", "d"⟩ []
        id (fun _ => ([], [])) [] [] "d").effects = []) ∧
    (handleUpdateNote (some ⟨"n1", "t", "ct", true, none, none, []⟩)
        ⟨"T", "c", "Personal", true, "", "", "d"⟩ "" [] [] id
        (fun _ => ([], [])) [] [] "d"
      = .validationError "Password required to save encrypted note") :=
  ⟨missing_password_fails_before_effects.1
      ⟨"T", "c", true, "", "", "Personal", "d"⟩ [] id (fun _ => ([], []))
      [] [] "d" rfl rfl,
    (missing_password_fails_before_effects.2
      ⟨"n1", "t", "ct", true, none, none, []⟩
      ⟨"T", "c", "Personal", true, "", "", "d"⟩ "" [] [] id
      (fun _ => ([], [])) [] [] "d" rfl rfl rfl).1⟩

/-- Claim C10: when a note is saved with encryption enabled, only the content
field is encrypted: the persisted payload's title is the user-supplied
title verbatim, both on create and on update, and a successful unlock
caches the title straight from the stored record, only the content having
gone through decryption. -/
theorem titles_persist_in_plaintext :
    (∀ (form : NewNoteForm) (staged : List StagedFile)
        (uploadPath : String → String) (randF : Nat → List Nat × List Nat)
        (randSalt randIv : List Nat) (createdAt : String),
        form.encrypt = true → jsTrim form.title ≠ "" → form.password ≠ "" →
        form.password = form.confirmPassword →
        ∃ payload trace,
          handleSaveNewNote form staged uploadPath randF randSalt randIv
              createdAt = .saved payload trace ∧
          payload.title = form.title ∧ payload.is_encrypted = true ∧
          payload.content = (encryptData form.content form.password none
              randSalt randIv).ciphertext) ∧
    (∀ (note : NoteRec) (editForm : EditForm) (unlockPassword : String)
        (staged : List StagedFile) (existing : List String)
        (uploadPath : String → String) (randF : Nat → List Nat × List Nat)
        (randSalt randIv : List Nat) (createdAt : String),
        editForm.is_encrypted = true → editForm.password ≠ "" →
        ∃ payload trace,
          handleUpdateNote (some note) editForm unlockPassword staged existing
              uploadPath randF randSalt randIv createdAt = .saved payload trace ∧
          payload.title = editForm.title ∧ payload.is_encrypted = true ∧
          payload.content = (encryptData editForm.content editForm.password
              none randSalt randIv).ciphertext) ∧
    (∀ (s : VaultState) (note : NoteRec) (content : String),
        s.selectedNote = some note →
        decryptData note.content (note.iv.getD "") (note.salt.getD "")
            s.unlockPassword = some content →
        (vaultStep s .unlock).decryptedCache
          = objInsert note.id ⟨note.title, content⟩ s.decryptedCache) := by
  refine ⟨?_, ?_, ?_⟩
  · intro form staged uploadPath randF randSalt randIv createdAt henc ht hpw hcf
    have h1 : (form.password == "") = false := by simp [hpw]
    have h2 : (form.password != form.confirmPassword) = false := by simp [hcf]
    unfold handleSaveNewNote
    simp only [if_neg ht, henc, h1, h2, Bool.and_false, Bool.false_eq_true,
      if_false, eq_self_iff_true, if_true]
    exact ⟨_, _, rfl, rfl, rfl, rfl⟩
  · intro note editForm unlockPassword staged existing uploadPath randF
      randSalt randIv createdAt henc hpw
    have h1 : (editForm.password != "") = true := by simp [hpw]
    have h2 : (editForm.password == "") = false := by simp [hpw]
    unfold handleUpdateNote
    simp only [h1, if_true, henc, h2, Bool.and_false, Bool.false_eq_true,
      if_false, eq_self_iff_true]
    exact ⟨_, _, rfl, rfl, rfl, rfl⟩
  · intro s note content hfind hdec
    simp only [vaultStep, hfind, hdec]

theorem titles_persist_in_plaintext_witness :
    (∃ payload trace,
        handleSaveNewNote ⟨"T", "c", true, "p", "p", "Personal", "d"⟩ [] id
            (fun _ => ([], [])) [] [] "d" = .saved payload trace ∧
        payload.title = "T" ∧ payload.is_encrypted = true ∧
        payload.content = (encryptData "c" "p" none [] []).ciphertext) ∧
    (∃ payload trace,
        handleUpdateNote (some ⟨"n1", "t", "ct", true, none, none, []⟩)
            ⟨"T", "c", "Personal", true, "p", "p", "d"⟩ "" [] [] id
            (fun _ => ([], [])) [] [] "d" = .saved payload trace ∧
        payload.title = "T" ∧ payload.is_encrypted = true ∧
        payload.content = (encryptData "c" "p" none [] []).ciphertext) :=
  ⟨titles_persist_in_plaintext.1 ⟨"T", "c", true, "p", "p", "Personal", "d"⟩
      [] id (fun _ => ([], [])) [] [] "d" rfl (by decide) (by decide) rfl,
    titles_persist_in_plaintext.2.1 ⟨"n1", "t", "ct", true, none, none, []⟩
      ⟨"T", "c", "Personal", true, "p", "p", "d"⟩ "" [] [] id
      (fun _ => ([], [])) [] [] "d" rfl (by decide)⟩

end TMVault
